import Mathlib

/-!
Verification of the OpenAlex MCP tool adapter.

Shallow embedding of the request-building / response-normalization layer of the
repository: Python strings are modelled as lists of characters where the string
algorithms matter (abstract reconstruction, DOI cleaning) and as Lean strings
where they are opaque; Python dict / list values flowing through the HTTP layer
are modelled as opaque type parameters together with the accessor functions the
code applies to them; fallible calls return Except.  Every definition is
translated from the corresponding function of the source (file and function
named in its doc comment); spec-modelled definitions are marked as such.
-/

set_option linter.unusedVariables false

namespace OpenAlexMCP

/-! ## Python string primitives -/

/-- Characters treated as whitespace by Python str.strip() / str.split()
(restricted to the ASCII whitespace characters relevant to this code). -/
def isWs (c : Char) : Bool :=
  c == ' ' || c == '\t' || c == '\n' || c == '\r'

/-- Model of Python str.split() with no argument: split on whitespace runs,
dropping empty pieces.  The accumulator holds the current token reversed. -/
def splitWsAux : List Char → List Char → List (List Char)
  | [], acc => if acc.isEmpty then [] else [acc.reverse]
  | c :: cs, acc =>
    if isWs c then
      (if acc.isEmpty then splitWsAux cs [] else acc.reverse :: splitWsAux cs [])
    else splitWsAux cs (c :: acc)

def splitWs (s : List Char) : List (List Char) := splitWsAux s []

/-- Model of Python ' '.join(tokens). -/
def joinSp : List (List Char) → List Char
  | [] => []
  | [t] => t
  | t :: ts => t ++ ' ' :: joinSp ts

/-- Model of Python str.strip(). -/
def stripWs (s : List Char) : List Char :=
  ((s.dropWhile isWs).reverse.dropWhile isWs).reverse

/-- Model of Python s.replace(pat, '') - delete all non-overlapping occurrences
of pat scanning left to right - with explicit fuel; fuel = s.length suffices
because every step consumes at least one character of s. -/
def replaceDelAux (pat : List Char) : Nat → List Char → List Char
  | _, [] => []
  | 0, s => s
  | fuel + 1, c :: cs =>
    if pat ≠ [] ∧ pat.isPrefixOf (c :: cs) then
      replaceDelAux pat fuel ((c :: cs).drop pat.length)
    else
      c :: replaceDelAux pat fuel cs

def pyReplaceDel (pat s : List Char) : List Char := replaceDelAux pat s.length s

/-- pat occurs as a contiguous substring of s. -/
def containsSub (pat : List Char) : List Char → Bool
  | [] => pat.isEmpty
  | c :: cs => pat.isPrefixOf (c :: cs) || containsSub pat cs

/-! ## openalex_modules/openalex_utils.py -/

/-- From openalex_utils.reconstruct_abstract_from_inverted_index: place each
word at each of its listed positions.  Python: for word, positions in
abstract_inverted_index.items(): for position in positions: words[position] = word. -/
def setPositions (arr : List (List Char)) (w : List Char) (ps : List Nat) : List (List Char) :=
  ps.foldl (fun a p => a.set p w) arr

def fillSlots (idx : List (List Char × List Nat)) (arr : List (List Char)) : List (List Char) :=
  idx.foldl (fun a wp => setPositions a wp.1 wp.2) arr

/-- Python: max(max(positions) for positions in abstract_inverted_index.values());
positions are non-negative, so folding Nat.max from 0 agrees with Python max
on non-empty lists. -/
def maxPosition (idx : List (List Char × List Nat)) : Nat :=
  (idx.map (fun wp => wp.2.foldl Nat.max 0)).foldl Nat.max 0

/-- openalex_utils.reconstruct_abstract_from_inverted_index.  The dict is
modelled as a list of (word, positions) pairs in iteration order.  The branch
for an entry with an empty position list models the ValueError raised by the
inner max() on an empty sequence, which the function catches and turns
into the empty string. -/
def reconstruct_abstract_from_inverted_index (idx : List (List Char × List Nat)) : List Char :=
  if idx.isEmpty then []
  else if idx.any (fun wp => wp.2.isEmpty) then []
  else
    let words := fillSlots idx (List.replicate (maxPosition idx + 1) [])
    stripWs (joinSp (words.filter (fun w => !w.isEmpty)))

/-- openalex_utils.clean_doi: strip the three recognized prefixes (each by a
global replace with the empty string, in source order) and surrounding
whitespace; empty input short-circuits to the empty string. -/
def clean_doi (doi : List Char) : List Char :=
  if doi.isEmpty then []
  else
    stripWs (pyReplaceDel "doi:".data
      (pyReplaceDel "http://doi.org/".data
        (pyReplaceDel "https://doi.org/".data doi)))

/-! ## Python float rounding -/

/-- Round to the nearest integer, ties to even: the rounding mode of Python's
built-in round.  Python float arithmetic is modelled by exact rational
arithmetic. -/
def roundHalfEven (q : ℚ) : ℤ :=
  let f := ⌊q⌋
  let r := q - (f : ℚ)
  if r < 1 / 2 then f
  else if 1 / 2 < r then f + 1
  else if f % 2 = 0 then f else f + 1

/-- Model of Python round(x, 2). -/
def pyRound2 (q : ℚ) : ℚ := (roundHalfEven (q * 100) : ℚ) / 100

/-- Written from the spec's words, for comparison with the code in C9:
citations_per_work = cited_by_count / works_count rounded to 2 decimals when
works_count > 0, and 0 when works_count = 0. -/
def specCitationsPerWork (works_count cited_by_count : Nat) : ℚ :=
  if works_count = 0 then 0
  else pyRound2 ((cited_by_count : ℚ) / (works_count : ℚ))

/-! ## Error model and request records -/

/-- Outcome of one HTTP attempt: an HTTP error with a status code (Python
requests.exceptions.HTTPError raised by raise_for_status) or any other
requests.exceptions.RequestException (timeout, connection error, ...). -/
inductive ApiErr where
  | httpError (status : Nat)
  | requestFailure
deriving DecidableEq, Repr

/-- Arguments the publication retriever passes to OpenAlexAPIClient.search_works:
the query, the filters dict (which holds at most the publication_year key,
always a string) and per_page. -/
structure WorksCall where
  query : String
  yearFilter : Option String
  perPage : Nat
deriving DecidableEq, Repr

/-- Arguments the author / concept retrievers pass to search_authors /
search_concepts (no filters argument is ever supplied by them). -/
structure EntityCall where
  query : String
  perPage : Nat
deriving DecidableEq, Repr

/-- Query parameters of the single outbound GET built by
OpenAlexAPIClient.search_works. -/
structure WorksParams where
  search : String
  page : Nat
  perPage : Nat
  filter : Option String
deriving DecidableEq, Repr

/-! ## slr_modules/api_clients.py -/

namespace OpenAlexAPIClient

/-- Retry loop of OpenAlexAPIClient._make_request, with the network abstracted
as the outcome of each numbered attempt.  Returns the final outcome (the value
returned, or the exception re-raised after the last attempt), the number of
attempts performed, and the wait times slept between attempts, in order.
Python: for attempt in range(self.retries + 1): try ... except: if
attempt == self.retries: raise else: sleep(2 ** attempt). -/
def _make_request_attempts (outcome : Nat → Except ApiErr α) :
    Nat → Nat → Except ApiErr α × Nat × List Nat
  | attempt, 0 => (outcome attempt, 1, [])
  | attempt, remaining + 1 =>
    match outcome attempt with
    | .ok v => (.ok v, 1, [])
    | .error _ =>
      let rest := _make_request_attempts outcome (attempt + 1) remaining
      (rest.1, rest.2.1 + 1, 2 ^ attempt :: rest.2.2)

def _make_request (retries : Nat) (outcome : Nat → Except ApiErr α) :
    Except ApiErr α × Nat × List Nat :=
  _make_request_attempts outcome 0 retries

/-- Per-page parameter computed by search_works: min(per_page or
default_per_page, max_per_page); `or` is Python truthiness, so per_page = 0
also falls back to the default. -/
def perPageParam (perPage : Option Nat) (default_per_page max_per_page : Nat) : Nat :=
  min (match perPage with
       | none => default_per_page
       | some p => if p = 0 then default_per_page else p) max_per_page

/-- Query parameters built by OpenAlexAPIClient.search_works for the call the
publication retriever makes (filters dict with at most the publication_year
key holding a string value; page defaults to 1). -/
def search_works_params (call : WorksCall) (default_per_page max_per_page : Nat) : WorksParams :=
  { search := call.query
    page := 1
    perPage := perPageParam (some call.perPage) default_per_page max_per_page
    filter := call.yearFilter.map (fun f => "publication_year:" ++ f) }

/-- DOI normalization inside OpenAlexAPIClient.get_work_by_doi: if the DOI does
not already start with the https resolver prefix, strip a leading doi: and
prepend the resolver prefix. -/
def ensureDoiUrl (doi : String) : String :=
  if "https://doi.org/".isPrefixOf doi then doi
  else if "doi:".isPrefixOf doi then "https://doi.org/" ++ doi.drop 4
  else "https://doi.org/" ++ doi

/-- OpenAlexAPIClient.get_work_by_doi: request the single-item endpoint;
a 404 HTTPError becomes None, every other exception propagates.  The network
is abstracted as a function from the request path to the final outcome of
_make_request for that path. -/
def get_work_by_doi (doi : String) (request : String → Except ApiErr α) :
    Except ApiErr (Option α) :=
  match request ("/works/" ++ ensureDoiUrl doi) with
  | .ok j => .ok (some j)
  | .error (.httpError st) => if st = 404 then .ok none else .error (.httpError st)
  | .error .requestFailure => .error .requestFailure

end OpenAlexAPIClient

/-! ## openalex_modules/openalex_publication_retriever.py -/

namespace OpenAlexPublicationRetriever

/-- Python truthiness of an Optional[int]: None and 0 are falsy. -/
def intTruthy : Option Int → Bool
  | none => false
  | some n => n ≠ 0

/-- Filter construction in search_publications: if start_year and end_year:
"start-end" elif start_year: ">=start" elif end_year: "<=end". -/
def buildPublicationFilters (start_year end_year : Option Int) : Option String :=
  if intTruthy start_year && intTruthy end_year then
    some (toString (start_year.getD 0) ++ "-" ++ toString (end_year.getD 0))
  else if intTruthy start_year then
    some (">=" ++ toString (start_year.getD 0))
  else if intTruthy end_year then
    some ("<=" ++ toString (end_year.getD 0))
  else
    none

/-- The single call search_publications makes to api_client.search_works:
query, the filters dict, per_page = min(max_results, 50). -/
def search_works_call (query : String) (max_results : Nat) (start_year end_year : Option Int) :
    WorksCall :=
  { query := query
    yearFilter := buildPublicationFilters start_year end_year
    perPage := min max_results 50 }

/-- OpenAlexPublicationRetriever.search_publications.  Raw works and processed
records are opaque (the normalizer is the function argument process, modelling
_process_work_data).  works[:max_results] is List.take (max_results is
modelled as a natural number, matching the documented domain of the argument).
The source guards each append with `if processed_work:`; _process_work_data
always returns a dict containing at least the title and doi keys on both of
its branches, and a non-empty dict is truthy in Python, so the guard never
drops a record and is omitted here.  Any exception from the client propagates
(the except clause re-raises). -/
def search_publications (query : String) (max_results : Nat) (start_year end_year : Option Int)
    (api : WorksCall → Except ApiErr (List α)) (process : α → β) :
    Except ApiErr (List β) :=
  match api (search_works_call query max_results start_year end_year) with
  | .error e => .error e
  | .ok works => .ok ((works.take max_results).map process)

/-- OpenAlexPublicationRetriever.get_by_doi: clean the DOI, fetch via
get_work_by_doi, process when the work data is truthy (a non-empty dict),
None otherwise; exceptions propagate.  truthy models the Python test
`if work_data:` on the returned JSON value. -/
def get_by_doi (doi : String) (request : String → Except ApiErr α)
    (truthy : α → Bool) (process : α → β) : Except ApiErr (Option β) :=
  match OpenAlexAPIClient.get_work_by_doi (String.mk (clean_doi doi.data)) request with
  | .error e => .error e
  | .ok none => .ok none
  | .ok (some j) => .ok (if truthy j then some (process j) else none)

end OpenAlexPublicationRetriever

/-! ## openalex_modules/openalex_author_retriever.py -/

namespace OpenAlexAuthorRetriever

/-- OpenAlexAuthorRetriever.search_authors: query is the name, extended by the
affiliation when that is truthy (a non-None, non-empty string); one client call
with per_page = min(max_results, 50); first max_results results processed.
The `if processed_author:` guard never drops a record for the same reason as
in search_publications. -/
def search_authors (name : String) (max_results : Nat) (affiliation : Option String)
    (api : EntityCall → Except ApiErr (List α)) (process : α → β) :
    Except ApiErr (List β) :=
  let query := match affiliation with
    | some a => if a.isEmpty then name else name ++ " " ++ a
    | none => name
  match api { query := query, perPage := min max_results 50 } with
  | .error e => .error e
  | .ok authors => .ok ((authors.take max_results).map process)

/-- The call OpenAlexAuthorRetriever.get_by_openalex_id makes to
api_client.search_authors: an empty query and per_page = 1; the openalex_id
argument appears in no parameter. -/
def id_lookup_call : EntityCall := { query := "", perPage := 1 }

/-- OpenAlexAuthorRetriever.get_by_openalex_id: a generic search with an empty
query; the first result (if any) is processed.  The openalex_id argument is
used only in the log message of the except clause. -/
def get_by_openalex_id (openalex_id : String)
    (api : EntityCall → Except ApiErr (List α)) (process : α → β) :
    Except ApiErr (Option β) :=
  match api id_lookup_call with
  | .error e => .error e
  | .ok authors => .ok (authors.head?.map process)

/-- The citations_per_work entry computed by
OpenAlexAuthorRetriever._calculate_author_metrics: round(cited_by_count /
works_count, 2) when works_count > 0, else 0.  Python float division and
round are modelled by exact rational arithmetic with round-half-to-even. -/
def _calculate_author_metrics_citations_per_work (works_count cited_by_count : Nat) : ℚ :=
  if works_count > 0 then
    pyRound2 ((cited_by_count : ℚ) / (works_count : ℚ))
  else 0

end OpenAlexAuthorRetriever

/-! ## openalex_modules/openalex_concept_retriever.py -/

namespace OpenAlexConceptRetriever

/-- OpenAlexConceptRetriever.search_concepts: one client call with
per_page = min(max_results, 50); of the first max_results results, those
failing the optional level filter are skipped, the rest are processed.
getLevel models concept.get('level') on the raw record. -/
def search_concepts (name : String) (max_results : Nat) (level : Option Int)
    (getLevel : α → Option Int)
    (api : EntityCall → Except ApiErr (List α)) (process : α → β) :
    Except ApiErr (List β) :=
  match api { query := name, perPage := min max_results 50 } with
  | .error e => .error e
  | .ok concepts =>
    .ok (((concepts.take max_results).filter (fun c =>
      match level with
      | none => true
      | some l => getLevel c == some l)).map process)

/-- The call OpenAlexConceptRetriever.get_by_openalex_id makes to
api_client.search_concepts: an empty query and per_page = 1; the openalex_id
argument appears in no parameter. -/
def id_lookup_call : EntityCall := { query := "", perPage := 1 }

/-- OpenAlexConceptRetriever.get_by_openalex_id: a generic search with an
empty query; the first result (if any) is processed. -/
def get_by_openalex_id (openalex_id : String)
    (api : EntityCall → Except ApiErr (List α)) (process : α → β) :
    Except ApiErr (Option β) :=
  match api id_lookup_call with
  | .error e => .error e
  | .ok concepts => .ok (concepts.head?.map process)

/-- The citations_per_work entry computed by
OpenAlexConceptRetriever._calculate_concept_metrics. -/
def _calculate_concept_metrics_citations_per_work (works_count cited_by_count : Nat) : ℚ :=
  if works_count > 0 then
    pyRound2 ((cited_by_count : ℚ) / (works_count : ℚ))
  else 0

end OpenAlexConceptRetriever

/-! ## app.py tool-exposure layer -/

namespace App

/-- app.search_openalex_papers: call the façade, return its results (the
Python `results or []` is the list itself, since an empty list maps to []);
any exception is caught, logged, and converted to the empty list. -/
def search_openalex_papers (search_query : String) (max_results : Nat)
    (start_year end_year : Option Int)
    (api : WorksCall → Except ApiErr (List α)) (process : α → β) : List β :=
  match OpenAlexPublicationRetriever.search_publications
      search_query max_results start_year end_year api process with
  | .ok results => results
  | .error _ => []

/-- app.get_publication_by_doi: any exception is caught and converted to None.
The source tests `if result:` on the processed dict; _process_work_data always
returns a non-empty (hence truthy) dict, so that test equals the Option. -/
def get_publication_by_doi (doi : String) (request : String → Except ApiErr α)
    (truthy : α → Bool) (process : α → β) : Option β :=
  match OpenAlexPublicationRetriever.get_by_doi doi request truthy process with
  | .ok r => r
  | .error _ => none

/-- app.search_openalex_authors: affiliation is not passed (defaults to None);
any exception is caught and converted to the empty list. -/
def search_openalex_authors (author_name : String) (max_results : Nat)
    (api : EntityCall → Except ApiErr (List α)) (process : α → β) : List β :=
  match OpenAlexAuthorRetriever.search_authors author_name max_results none api process with
  | .ok results => results
  | .error _ => []

/-- app.search_openalex_concepts: level is not passed (defaults to None);
any exception is caught and converted to the empty list. -/
def search_openalex_concepts (concept_name : String) (max_results : Nat)
    (getLevel : α → Option Int)
    (api : EntityCall → Except ApiErr (List α)) (process : α → β) : List β :=
  match OpenAlexConceptRetriever.search_concepts concept_name max_results none
      getLevel api process with
  | .ok results => results
  | .error _ => []

end App

end OpenAlexMCP

/-! ## Claim theorems -/

namespace OpenAlexMCP

/-- C1 (corrected), counterexample to the claim as stated: with
start_year = 2025 > end_year = 2020 the publication search does not fail with
a validation error - it succeeds (here returning the stub API's empty result)
and the request it builds carries the inverted year range "2025-2020". -/
theorem C1_counterexample :
    OpenAlexPublicationRetriever.search_publications "q" 3 (some 2025) (some 2020)
      (fun _ => Except.ok ([] : List Nat)) (fun x => x) = Except.ok []
    ∧ (OpenAlexPublicationRetriever.search_works_call "q" 3 (some 2025) (some 2020)).yearFilter
      = some "2025-2020" :=
  ⟨rfl, by decide⟩

/-- C1 (amended): when both year bounds are supplied (and nonzero) with
start_year > end_year, search_publications performs no validation: it issues
the request with the year filter string start-end (the inverted range) and
returns the normalized API response instead of failing. -/
theorem C1_inverted_range_sent {α β : Type} (q : String) (mr : Nat) (s e : Int)
    (hs : s ≠ 0) (he : e ≠ 0) (hgt : e < s)
    (api : WorksCall → Except ApiErr (List α)) (process : α → β) (works : List α)
    (hok : api (OpenAlexPublicationRetriever.search_works_call q mr (some s) (some e))
      = Except.ok works) :
    (OpenAlexPublicationRetriever.search_works_call q mr (some s) (some e)).yearFilter
      = some (toString s ++ "-" ++ toString e)
    ∧ OpenAlexPublicationRetriever.search_publications q mr (some s) (some e) api process
      = Except.ok ((works.take mr).map process) := by
  constructor
  · simp [OpenAlexPublicationRetriever.search_works_call,
      OpenAlexPublicationRetriever.buildPublicationFilters,
      OpenAlexPublicationRetriever.intTruthy, hs, he]
  · simp [OpenAlexPublicationRetriever.search_publications, hok]

theorem C1_inverted_range_sent_witness :
    (OpenAlexPublicationRetriever.search_works_call "q" 3 (some 2025) (some 2020)).yearFilter
      = some (toString (2025 : Int) ++ "-" ++ toString (2020 : Int))
    ∧ OpenAlexPublicationRetriever.search_publications "q" 3 (some 2025) (some 2020)
      (fun _ => Except.ok ([3, 7] : List Nat)) (fun x => x)
      = Except.ok (([3, 7].take 3).map (fun x => x)) :=
  C1_inverted_range_sent "q" 3 2025 2020 (by decide) (by decide) (by decide)
    (fun _ => Except.ok [3, 7]) (fun x => x) [3, 7] rfl

/-- C2: the tool-exposure layer never lets an exception escape: whenever the
underlying façade call fails, search_openalex_papers, search_openalex_authors
and search_openalex_concepts return the empty list and get_publication_by_doi
returns none; and a zero-result search also returns the empty list, so the two
are indistinguishable at the caller. -/
theorem C2_boundary_never_raises {α β : Type}
    (q name cname doi : String) (mr : Nat) (sY eY : Option Int)
    (apiW : WorksCall → Except ApiErr (List α))
    (apiA apiC : EntityCall → Except ApiErr (List α))
    (request : String → Except ApiErr α)
    (truthy : α → Bool) (process : α → β) (getLevel : α → Option Int) :
    (∀ e, OpenAlexPublicationRetriever.search_publications q mr sY eY apiW process
        = Except.error e → App.search_openalex_papers q mr sY eY apiW process = [])
    ∧ (∀ e, OpenAlexAuthorRetriever.search_authors name mr none apiA process
        = Except.error e → App.search_openalex_authors name mr apiA process = [])
    ∧ (∀ e, OpenAlexConceptRetriever.search_concepts cname mr none getLevel apiC process
        = Except.error e → App.search_openalex_concepts cname mr getLevel apiC process = [])
    ∧ (∀ e, OpenAlexPublicationRetriever.get_by_doi doi request truthy process
        = Except.error e → App.get_publication_by_doi doi request truthy process = none)
    ∧ (OpenAlexPublicationRetriever.search_publications q mr sY eY apiW process
        = Except.ok [] → App.search_openalex_papers q mr sY eY apiW process = []) := by
  refine ⟨fun e h => ?_, fun e h => ?_, fun e h => ?_, fun e h => ?_, fun h => ?_⟩
  · simp [App.search_openalex_papers, h]
  · simp [App.search_openalex_authors, h]
  · simp [App.search_openalex_concepts, h]
  · simp [App.get_publication_by_doi, h]
  · simp [App.search_openalex_papers, h]

theorem C2_boundary_never_raises_witness :
    App.search_openalex_papers "q" 3 none none
      (fun _ => Except.error (α := List Nat) ApiErr.requestFailure) (fun x => x) = []
    ∧ App.search_openalex_authors "a" 3
      (fun _ => Except.error (α := List Nat) ApiErr.requestFailure) (fun x => x) = []
    ∧ App.search_openalex_concepts "c" 3 (fun _ => none)
      (fun _ => Except.error (α := List Nat) ApiErr.requestFailure) (fun x => x) = []
    ∧ App.get_publication_by_doi "10.1/x"
      (fun _ => Except.error (α := Nat) ApiErr.requestFailure) (fun _ => true) (fun x => x)
      = none := by
  have h := C2_boundary_never_raises (α := Nat) (β := Nat) "q" "a" "c" "10.1/x" 3 none none
    (fun _ => Except.error ApiErr.requestFailure) (fun _ => Except.error ApiErr.requestFailure)
    (fun _ => Except.error ApiErr.requestFailure) (fun _ => Except.error ApiErr.requestFailure)
    (fun _ => true) (fun x => x) (fun _ => none)
  exact ⟨h.1 ApiErr.requestFailure rfl, h.2.1 ApiErr.requestFailure rfl,
    h.2.2.1 ApiErr.requestFailure rfl, h.2.2.2.1 ApiErr.requestFailure rfl⟩

/-- C3: on a DOI lookup, get_work_by_doi returns None exactly when the final
HTTP failure is a 404 on the single-item endpoint, re-raises every other HTTP
error (and every transport failure), and get_by_doi turns a not-found DOI into
an absent result. -/
theorem C3_doi_404_absent {α β : Type} (doi : String)
    (request : String → Except ApiErr α) (truthy : α → Bool) (process : α → β) :
    (OpenAlexAPIClient.get_work_by_doi doi request = Except.ok none
      ↔ request ("/works/" ++ OpenAlexAPIClient.ensureDoiUrl doi)
        = Except.error (ApiErr.httpError 404))
    ∧ (∀ st, st ≠ 404 →
        request ("/works/" ++ OpenAlexAPIClient.ensureDoiUrl doi)
          = Except.error (ApiErr.httpError st) →
        OpenAlexAPIClient.get_work_by_doi doi request = Except.error (ApiErr.httpError st))
    ∧ (request ("/works/" ++ OpenAlexAPIClient.ensureDoiUrl doi)
          = Except.error ApiErr.requestFailure →
        OpenAlexAPIClient.get_work_by_doi doi request = Except.error ApiErr.requestFailure)
    ∧ (request ("/works/" ++ OpenAlexAPIClient.ensureDoiUrl (String.mk (clean_doi doi.data)))
          = Except.error (ApiErr.httpError 404) →
        OpenAlexPublicationRetriever.get_by_doi doi request truthy process = Except.ok none) := by
  refine ⟨?_, fun st hst h => ?_, fun h => ?_, fun h => ?_⟩
  · unfold OpenAlexAPIClient.get_work_by_doi
    cases h : request ("/works/" ++ OpenAlexAPIClient.ensureDoiUrl doi) with
    | ok j => simp
    | error e =>
      cases e with
      | httpError st =>
        by_cases h404 : st = 404
        · subst h404; simp
        · simp [h404]
      | requestFailure => simp
  · simp [OpenAlexAPIClient.get_work_by_doi, h, hst]
  · simp [OpenAlexAPIClient.get_work_by_doi, h]
  · simp [OpenAlexPublicationRetriever.get_by_doi, OpenAlexAPIClient.get_work_by_doi, h]

theorem C3_doi_404_absent_witness :
    OpenAlexAPIClient.get_work_by_doi "10.1038/nature12373"
      (fun _ => Except.error (α := Nat) (ApiErr.httpError 404)) = Except.ok none
    ∧ OpenAlexPublicationRetriever.get_by_doi "10.1038/nature12373"
      (fun _ => Except.error (α := Nat) (ApiErr.httpError 404)) (fun _ => true) (fun x => x)
      = Except.ok none := by
  have h := C3_doi_404_absent (β := Nat) "10.1038/nature12373"
    (fun _ => Except.error (ApiErr.httpError 404)) (fun _ => true) (fun x => x)
  exact ⟨h.1.mpr rfl, h.2.2.2 rfl⟩

/-- C9: for authors and concepts, citations_per_work equals cited_by_count /
works_count rounded to 2 decimals when works_count > 0 and 0 when
works_count = 0 (no division fault); both code paths agree with the spec
formula, and works_count = 42, cited_by_count = 1250 yields 29.76. -/
theorem C9_citations_per_work :
    (∀ w c : Nat, OpenAlexAuthorRetriever._calculate_author_metrics_citations_per_work w c
      = specCitationsPerWork w c)
    ∧ (∀ w c : Nat, OpenAlexConceptRetriever._calculate_concept_metrics_citations_per_work w c
      = specCitationsPerWork w c)
    ∧ OpenAlexAuthorRetriever._calculate_author_metrics_citations_per_work 42 1250 = 2976 / 100
    ∧ OpenAlexConceptRetriever._calculate_concept_metrics_citations_per_work 42 1250 = 2976 / 100
    ∧ OpenAlexAuthorRetriever._calculate_author_metrics_citations_per_work 0 1250 = 0
    ∧ OpenAlexConceptRetriever._calculate_concept_metrics_citations_per_work 0 1250 = 0 := by
  have hagree : ∀ w c : Nat,
      OpenAlexAuthorRetriever._calculate_author_metrics_citations_per_work w c
        = specCitationsPerWork w c := by
    intro w c
    unfold OpenAlexAuthorRetriever._calculate_author_metrics_citations_per_work
      specCitationsPerWork
    rcases Nat.eq_zero_or_pos w with h | h
    · simp [h]
    · simp [h, Nat.pos_iff_ne_zero.mp h]
  have hagree2 : ∀ w c : Nat,
      OpenAlexConceptRetriever._calculate_concept_metrics_citations_per_work w c
        = specCitationsPerWork w c := by
    intro w c
    unfold OpenAlexConceptRetriever._calculate_concept_metrics_citations_per_work
      specCitationsPerWork
    rcases Nat.eq_zero_or_pos w with h | h
    · simp [h]
    · simp [h, Nat.pos_iff_ne_zero.mp h]
  have hval : OpenAlexAuthorRetriever._calculate_author_metrics_citations_per_work 42 1250
      = 2976 / 100 := by
    unfold OpenAlexAuthorRetriever._calculate_author_metrics_citations_per_work
    norm_num [pyRound2, roundHalfEven]
  have hval2 : OpenAlexConceptRetriever._calculate_concept_metrics_citations_per_work 42 1250
      = 2976 / 100 := by
    unfold OpenAlexConceptRetriever._calculate_concept_metrics_citations_per_work
    norm_num [pyRound2, roundHalfEven]
  exact ⟨hagree, hagree2, hval, hval2, rfl, rfl⟩

/-- C10: get_by_openalex_id for authors and concepts ignores its identifier
argument: for any two identifiers it issues the same request (empty search
query, per_page = 1) and returns the same record. -/
theorem C10_id_lookup_ignores_id {α β : Type} (id1 id2 : String)
    (apiA apiC : EntityCall → Except ApiErr (List α)) (process : α → β) :
    OpenAlexAuthorRetriever.get_by_openalex_id id1 apiA process
      = OpenAlexAuthorRetriever.get_by_openalex_id id2 apiA process
    ∧ OpenAlexConceptRetriever.get_by_openalex_id id1 apiC process
      = OpenAlexConceptRetriever.get_by_openalex_id id2 apiC process
    ∧ OpenAlexAuthorRetriever.id_lookup_call = { query := "", perPage := 1 }
    ∧ OpenAlexConceptRetriever.id_lookup_call = { query := "", perPage := 1 } :=
  ⟨rfl, rfl, rfl, rfl⟩

end OpenAlexMCP

namespace OpenAlexMCP

/-- C4: each publication search makes a single client call (modelled by the one
api application in search_publications) which builds one page-1 request with
per_page = min(max_results, 50); it returns the first max_results raw results
normalized in the API's original order, never more, and an empty list (not an
error) when the API returns zero matches. -/
theorem C4_single_page_cap_order {α β : Type} (q : String) (mr : Nat) (sY eY : Option Int)
    (api : WorksCall → Except ApiErr (List α)) (process : α → β)
    (works : List α) (dpp mpp : Nat)
    (hok : api (OpenAlexPublicationRetriever.search_works_call q mr sY eY) = Except.ok works) :
    (OpenAlexPublicationRetriever.search_works_call q mr sY eY).perPage = min mr 50
    ∧ (OpenAlexAPIClient.search_works_params
        (OpenAlexPublicationRetriever.search_works_call q mr sY eY) dpp mpp).page = 1
    ∧ ∃ out, OpenAlexPublicationRetriever.search_publications q mr sY eY api process
        = Except.ok out
      ∧ out.length = min mr works.length
      ∧ out.length ≤ mr
      ∧ (∀ i, i < mr → out[i]? = (works[i]?).map process)
      ∧ (works = [] → out = []) := by
  refine ⟨rfl, rfl, (works.take mr).map process, ?_, ?_, ?_, ?_, ?_⟩
  · simp [OpenAlexPublicationRetriever.search_publications, hok]
  · simp [List.length_take]
  · simp [List.length_take]
  · intro i hi
    simp [List.getElem?_take_of_lt hi]
  · intro h
    simp [h]

theorem C4_single_page_cap_order_witness :
    (OpenAlexPublicationRetriever.search_works_call "q" 2 none none).perPage = min 2 50
    ∧ OpenAlexPublicationRetriever.search_publications "q" 2 none none
        (fun _ => Except.ok ([10, 20, 30] : List Nat)) (fun x => x + 1)
      = Except.ok [11, 21] := by
  have h := C4_single_page_cap_order "q" 2 none none
    (fun _ => Except.ok ([10, 20, 30] : List Nat)) (fun x => x + 1) [10, 20, 30] 25 200 rfl
  refine ⟨h.1, ?_⟩
  obtain ⟨out, hout, hlen, -, hidx, -⟩ := h.2.2
  have : out = [11, 21] := by
    have h0 := hidx 0 (by decide)
    have h1 := hidx 1 (by decide)
    simp at h0 h1 hlen
    cases out with
    | nil => simp at hlen
    | cons a t =>
      cases t with
      | nil => simp at hlen
      | cons b t2 =>
        cases t2 with
        | nil =>
          simp at h0 h1
          simp [h0, h1]
        | cons c t3 => simp at hlen
  rw [← this]; exact hout

/-- C5 (corrected), counterexample to the claim as stated: the tool layer does
not clamp max_results into the interval 1..20 - a call with max_results = 21
yields 21 records, and a call with max_results = 0 (below 1) yields no record
at all even though the API returned one. -/
theorem C5_counterexample :
    (App.search_openalex_papers "q" 21 none none
      (fun _ => Except.ok (List.range 21)) (fun x => x)).length = 21
    ∧ App.search_openalex_papers "q" 0 none none
      (fun _ => Except.ok ([5] : List Nat)) (fun x => x) = [] :=
  ⟨by decide, rfl⟩

/-- C5 (amended): the tool operations pass max_results through without any
clamping to 1..20: a search returns exactly min(max_results, number of API
results) records for papers and authors (so a value above 20 can yield more
than 20 records, bounded only by the requested page of min(max_results, 50)),
at most that many for concepts, and max_results = 0 yields the empty list
rather than at least one record. -/
theorem C5_no_clamp {α β : Type} (q name cname : String) (mr : Nat) (sY eY : Option Int)
    (apiW : WorksCall → Except ApiErr (List α))
    (apiA apiC : EntityCall → Except ApiErr (List α))
    (process : α → β) (getLevel : α → Option Int)
    (works authors concepts : List α)
    (hW : apiW (OpenAlexPublicationRetriever.search_works_call q mr sY eY) = Except.ok works)
    (hA : apiA { query := name, perPage := min mr 50 } = Except.ok authors)
    (hC : apiC { query := cname, perPage := min mr 50 } = Except.ok concepts) :
    (App.search_openalex_papers q mr sY eY apiW process).length = min mr works.length
    ∧ (App.search_openalex_authors name mr apiA process).length = min mr authors.length
    ∧ (App.search_openalex_concepts cname mr getLevel apiC process).length
        = min mr concepts.length := by
  refine ⟨?_, ?_, ?_⟩
  · simp [App.search_openalex_papers, OpenAlexPublicationRetriever.search_publications, hW,
      List.length_take]
  · simp [App.search_openalex_authors, OpenAlexAuthorRetriever.search_authors, hA,
      List.length_take]
  · simp [App.search_openalex_concepts, OpenAlexConceptRetriever.search_concepts, hC,
      List.filter_true, List.length_take]

theorem C5_no_clamp_witness :
    (App.search_openalex_papers "q" 21 none none
      (fun _ => Except.ok (List.range 30)) (fun x => x)).length = min 21 30
    ∧ (App.search_openalex_authors "a" 21
      (fun _ => Except.ok (List.range 30)) (fun x => x)).length = min 21 30 := by
  have h := C5_no_clamp "q" "a" "c" 21 none none
    (fun _ => Except.ok (List.range 30)) (fun _ => Except.ok (List.range 30))
    (fun _ => Except.ok (List.range 30)) (fun x => x) (fun _ => none)
    (List.range 30) (List.range 30) (List.range 30) rfl rfl rfl
  exact ⟨by simpa using h.1, by simpa using h.2.1⟩

end OpenAlexMCP

namespace OpenAlexMCP

lemma make_request_attempts_le {α : Type} (outcome : Nat → Except ApiErr α) :
    ∀ (r a : Nat), (OpenAlexAPIClient._make_request_attempts outcome a r).2.1 ≤ r + 1 := by
  intro r
  induction r with
  | zero => intro a; simp [OpenAlexAPIClient._make_request_attempts]
  | succ n ih =>
    intro a
    unfold OpenAlexAPIClient._make_request_attempts
    cases outcome a with
    | ok v => simp
    | error e =>
      simp only
      have := ih (a + 1)
      omega

lemma make_request_attempts_all_fail {α : Type} (outcome : Nat → Except ApiErr α) :
    ∀ (r a : Nat), (∀ j, j ≤ r → ∃ e, outcome (a + j) = Except.error e) →
    OpenAlexAPIClient._make_request_attempts outcome a r
      = (outcome (a + r), r + 1, (List.range r).map (fun i => 2 ^ (a + i))) := by
  intro r
  induction r with
  | zero => intro a h; simp [OpenAlexAPIClient._make_request_attempts]
  | succ n ih =>
    intro a h
    obtain ⟨e, he⟩ := h 0 (Nat.zero_le _)
    simp only [Nat.add_zero] at he
    unfold OpenAlexAPIClient._make_request_attempts
    rw [he]
    simp only
    have hrec := ih (a + 1) (fun j hj => by
      have := h (j + 1) (by omega)
      simpa [Nat.add_comm, Nat.add_assoc, Nat.add_left_comm] using this)
    rw [hrec]
    have h2 : (List.range (n + 1)).map (fun i => 2 ^ (a + i))
        = 2 ^ a :: (List.range n).map (fun i => 2 ^ (a + 1 + i)) := by
      simp only [List.range_succ_eq_map, List.map_cons, List.map_map, Nat.add_zero]
      congr 1
      refine List.map_congr_left fun i hi => ?_
      simp only [Function.comp_apply]
      congr 1
      omega
    rw [show a + 1 + n = a + (n + 1) from by omega, h2]

lemma make_request_attempts_success {α : Type} (outcome : Nat → Except ApiErr α) (v : α) :
    ∀ (k r a : Nat), k ≤ r → outcome (a + k) = Except.ok v →
    (∀ j, j < k → ∃ e, outcome (a + j) = Except.error e) →
    OpenAlexAPIClient._make_request_attempts outcome a r
      = (Except.ok v, k + 1, (List.range k).map (fun i => 2 ^ (a + i))) := by
  intro k
  induction k with
  | zero =>
    intro r a hk hs hf
    simp only [Nat.add_zero] at hs
    cases r with
    | zero => simp [OpenAlexAPIClient._make_request_attempts, hs]
    | succ n =>
      unfold OpenAlexAPIClient._make_request_attempts
      rw [hs]; simp
  | succ m ih =>
    intro r a hk hs hf
    obtain ⟨e, he⟩ := hf 0 (Nat.succ_pos _)
    simp only [Nat.add_zero] at he
    cases r with
    | zero => omega
    | succ n =>
      unfold OpenAlexAPIClient._make_request_attempts
      rw [he]
      simp only
      have hrec := ih n (a + 1) (by omega)
        (by rw [show a + 1 + m = a + (m + 1) by omega]; exact hs)
        (fun j hj => by
          have := hf (j + 1) (by omega)
          simpa [Nat.add_comm, Nat.add_assoc, Nat.add_left_comm] using this)
      rw [hrec]
      have h2 : (List.range (m + 1)).map (fun i => 2 ^ (a + i))
          = 2 ^ a :: (List.range m).map (fun i => 2 ^ (a + 1 + i)) := by
        simp only [List.range_succ_eq_map, List.map_cons, List.map_map, Nat.add_zero]
        congr 1
        refine List.map_congr_left fun i hi => ?_
        simp only [Function.comp_apply]
        congr 1
        omega
      rw [h2]

/-- C8: the retry loop of _make_request performs at most retries + 1 attempts;
when every attempt fails it performs exactly retries + 1 attempts, sleeps
2 ^ attempt seconds before retry number attempt + 1 (waits 2^0, 2^1, ...) and
re-raises the final failure; when attempt k is the first to succeed it stops
there (k + 1 attempts, waits 2^0 .. 2^(k-1)) and returns the parsed body. -/
theorem C8_retry_backoff {α : Type} (retries : Nat) (outcome : Nat → Except ApiErr α) :
    (OpenAlexAPIClient._make_request retries outcome).2.1 ≤ retries + 1
    ∧ ((∀ k, k ≤ retries → ∃ e, outcome k = Except.error e) →
        OpenAlexAPIClient._make_request retries outcome
          = (outcome retries, retries + 1, (List.range retries).map (fun i => 2 ^ i)))
    ∧ (∀ k v, k ≤ retries → outcome k = Except.ok v →
        (∀ j, j < k → ∃ e, outcome j = Except.error e) →
        OpenAlexAPIClient._make_request retries outcome
          = (Except.ok v, k + 1, (List.range k).map (fun i => 2 ^ i))) := by
  refine ⟨make_request_attempts_le outcome retries 0, fun h => ?_, fun k v hk hs hf => ?_⟩
  · have := make_request_attempts_all_fail outcome retries 0 (fun j hj => by
      simpa using h j hj)
    simpa [OpenAlexAPIClient._make_request] using this
  · have := make_request_attempts_success outcome v k retries 0 hk (by simpa using hs)
      (fun j hj => by simpa using hf j hj)
    simpa [OpenAlexAPIClient._make_request] using this

theorem C8_retry_backoff_witness :
    OpenAlexAPIClient._make_request 3
      (fun k => if k < 2 then Except.error ApiErr.requestFailure else Except.ok 99)
      = (Except.ok 99, 3, [1, 2])
    ∧ OpenAlexAPIClient._make_request 3
      (fun _ => Except.error (α := Nat) (ApiErr.httpError 500))
      = (Except.error (ApiErr.httpError 500), 4, [1, 2, 4]) := by
  constructor
  · have h := (C8_retry_backoff 3
      (fun k => if k < 2 then Except.error ApiErr.requestFailure else Except.ok 99)).2.2
      2 99 (by decide) rfl
      (fun j hj => ⟨ApiErr.requestFailure, by simp [hj]⟩)
    simpa using h
  · have h := (C8_retry_backoff 3
      (fun _ => Except.error (α := Nat) (ApiErr.httpError 500))).2.1
      (fun k hk => ⟨ApiErr.httpError 500, rfl⟩)
    simpa using h

end OpenAlexMCP

namespace OpenAlexMCP

lemma replaceDelAux_eq_of_not_contains (pat : List Char) :
    ∀ (s : List Char) (fuel : Nat), s.length ≤ fuel →
      containsSub pat s = false → replaceDelAux pat fuel s = s := by
  intro s
  induction s with
  | nil => intro fuel _ _; cases fuel <;> rfl
  | cons c cs ih =>
    intro fuel hf hc
    cases fuel with
    | zero => simp at hf
    | succ f =>
      unfold containsSub at hc
      rw [Bool.or_eq_false_iff] at hc
      unfold replaceDelAux
      rw [if_neg (by simp [hc.1])]
      have := ih f (by simpa using hf) hc.2
      rw [this]

lemma pyReplaceDel_eq_of_not_contains (pat s : List Char)
    (hc : containsSub pat s = false) : pyReplaceDel pat s = s :=
  replaceDelAux_eq_of_not_contains pat s s.length le_rfl hc

lemma dropWhile_dropWhile (p : Char → Bool) (l : List Char) :
    (l.dropWhile p).dropWhile p = l.dropWhile p := by
  cases h : l.dropWhile p with
  | nil => simp
  | cons a t =>
    have hpa : p a = false := by
      have := List.head?_dropWhile_not p l
      rw [h] at this
      exact this
    simp [List.dropWhile_cons, hpa]

lemma dropWhile_eq_self_of_head (p : Char → Bool) (l : List Char)
    (h : ∀ a, l.head? = some a → p a = false) : l.dropWhile p = l := by
  cases l with
  | nil => rfl
  | cons a t => simp [List.dropWhile_cons, h a rfl]

lemma stripWs_idem (s : List Char) : stripWs (stripWs s) = stripWs s := by
  unfold stripWs
  have hA : (((s.dropWhile isWs).reverse.dropWhile isWs).reverse).dropWhile isWs
      = ((s.dropWhile isWs).reverse.dropWhile isWs).reverse := by
    apply dropWhile_eq_self_of_head
    intro x hx
    rw [List.head?_reverse] at hx
    have hwne : (s.dropWhile isWs).reverse.dropWhile isWs ≠ [] := by
      intro hnil
      rw [hnil] at hx
      simp at hx
    have hsplit : ((s.dropWhile isWs).reverse.takeWhile isWs)
        ++ ((s.dropWhile isWs).reverse.dropWhile isWs) = (s.dropWhile isWs).reverse :=
      List.takeWhile_append_dropWhile _ _
    have hlast : ((s.dropWhile isWs).reverse).getLast? = some x := by
      rw [← hsplit, List.getLast?_append_of_ne_nil _ hwne]
      exact hx
    rw [List.getLast?_reverse] at hlast
    have := List.head?_dropWhile_not isWs s
    rw [hlast] at this
    exact this
  rw [hA, List.reverse_reverse, dropWhile_dropWhile]

/-- C7 (corrected), counterexample to idempotence as universally stated: on the
input dodoi:i: one cleaning produces doi: (deleting the inner occurrence glues
a new prefix occurrence together), and a second cleaning deletes that, so
clean_doi (clean_doi x) differs from clean_doi x. -/
theorem C7_counterexample :
    clean_doi (clean_doi "dodoi:i:".data) ≠ clean_doi "dodoi:i:".data
    ∧ clean_doi "dodoi:i:".data = "doi:".data
    ∧ clean_doi (clean_doi "dodoi:i:".data) = [] :=
  ⟨by decide, by decide, by decide⟩

/-- C7 (amended): clean_doi strips the prefixes https://doi.org/,
http://doi.org/ and doi: (each one everywhere in the string, in that order)
and surrounding whitespace; it is idempotent on every input whose cleaned form
contains no further occurrence of any of the three prefixes - in particular on
well-formed DOIs such as the two spec examples - but not on all strings. -/
theorem C7_clean_doi_idempotent_amended :
    (∀ x : List Char,
      containsSub "https://doi.org/".data (clean_doi x) = false →
      containsSub "http://doi.org/".data (clean_doi x) = false →
      containsSub "doi:".data (clean_doi x) = false →
      clean_doi (clean_doi x) = clean_doi x)
    ∧ clean_doi "https://doi.org/10.1038/nature12373".data = "10.1038/nature12373".data
    ∧ clean_doi "doi:10.1038/nature12373".data = "10.1038/nature12373".data
    ∧ clean_doi "10.1038/nature12373".data = "10.1038/nature12373".data := by
  have hdef : ∀ z : List Char, clean_doi z = if z.isEmpty then [] else
      stripWs (pyReplaceDel "doi:".data
        (pyReplaceDel "http://doi.org/".data
          (pyReplaceDel "https://doi.org/".data z))) := fun z => rfl
  refine ⟨fun x h1 h2 h3 => ?_, by decide, by decide, by decide⟩
  by_cases hx : x.isEmpty
  · simp [hdef, hx]
  · by_cases hy : (clean_doi x).isEmpty
    · have hnil : clean_doi x = [] := by
        cases h : clean_doi x
        · rfl
        · rw [h] at hy; simp at hy
      rw [hnil]
      simp [hdef]
    · rw [hdef (clean_doi x), if_neg (by simpa using hy)]
      rw [pyReplaceDel_eq_of_not_contains _ _ h1,
        pyReplaceDel_eq_of_not_contains _ _ h2,
        pyReplaceDel_eq_of_not_contains _ _ h3]
      rw [hdef x, if_neg (by simpa using hx)]
      exact stripWs_idem _

theorem C7_clean_doi_idempotent_amended_witness :
    clean_doi (clean_doi "https://doi.org/10.1038/nature12373".data)
      = clean_doi "https://doi.org/10.1038/nature12373".data :=
  C7_clean_doi_idempotent_amended.1 "https://doi.org/10.1038/nature12373".data
    (by decide) (by decide) (by decide)

end OpenAlexMCP

namespace OpenAlexMCP

lemma le_foldl_max (l : List Nat) : ∀ a : Nat, a ≤ l.foldl Nat.max a := by
  induction l with
  | nil => intro a; exact le_rfl
  | cons x t ih =>
    intro a
    exact le_trans (Nat.le_max_left a x) (ih (Nat.max a x))

lemma mem_le_foldl_max (l : List Nat) (x : Nat) (h : x ∈ l) :
    ∀ a : Nat, x ≤ l.foldl Nat.max a := by
  induction l with
  | nil => cases h
  | cons c t ih =>
    intro a
    rcases List.mem_cons.mp h with h1 | h1
    · subst h1
      exact le_trans (Nat.le_max_right a x) (le_foldl_max t (Nat.max a x))
    · exact ih h1 (Nat.max a c)

lemma foldl_max_le (l : List Nat) : ∀ a b : Nat, a ≤ b → (∀ x ∈ l, x ≤ b) →
    l.foldl Nat.max a ≤ b := by
  induction l with
  | nil => intro a b hab _; exact hab
  | cons c t ih =>
    intro a b hab hx
    exact ih (Nat.max a c) b (Nat.max_le.mpr ⟨hab, hx c (List.mem_cons_self c t)⟩)
      (fun x hxt => hx x (List.mem_cons_of_mem _ hxt))

lemma length_setPositions (ps : List Nat) : ∀ (arr : List (List Char)) (w : List Char),
    (setPositions arr w ps).length = arr.length := by
  induction ps with
  | nil => intro arr w; rfl
  | cons p t ih =>
    intro arr w
    show (setPositions (arr.set p w) w t).length = arr.length
    rw [ih, List.length_set]

lemma getElem?_setPositions_not_mem (ps : List Nat) :
    ∀ (arr : List (List Char)) (w : List Char) (p : Nat), p ∉ ps →
    (setPositions arr w ps)[p]? = arr[p]? := by
  induction ps with
  | nil => intro arr w p _; rfl
  | cons q t ih =>
    intro arr w p hp
    have hq : q ≠ p := fun h => hp (h ▸ List.mem_cons_self q t)
    have ht : p ∉ t := fun h => hp (List.mem_cons_of_mem _ h)
    show (setPositions (arr.set q w) w t)[p]? = arr[p]?
    rw [ih _ _ _ ht, List.getElem?_set_ne hq]

lemma getElem?_setPositions_mem (ps : List Nat) :
    ∀ (arr : List (List Char)) (w : List Char) (p : Nat), p ∈ ps → p < arr.length →
    (setPositions arr w ps)[p]? = some w := by
  induction ps with
  | nil => intro arr w p hp _; cases hp
  | cons q t ih =>
    intro arr w p hp hlen
    show (setPositions (arr.set q w) w t)[p]? = some w
    by_cases hm : p ∈ t
    · exact ih _ _ _ hm (by rw [List.length_set]; exact hlen)
    · have hq : p = q := by
        rcases List.mem_cons.mp hp with h | h
        · exact h
        · exact absurd h hm
      subst hq
      rw [getElem?_setPositions_not_mem t _ _ _ hm, List.getElem?_set_self hlen]

lemma length_fillSlots (idx : List (List Char × List Nat)) :
    ∀ arr : List (List Char), (fillSlots idx arr).length = arr.length := by
  induction idx with
  | nil => intro arr; rfl
  | cons wp rest ih =>
    intro arr
    show (fillSlots rest (setPositions arr wp.1 wp.2)).length = arr.length
    rw [ih, length_setPositions]

lemma getElem?_fillSlots_not_covered (idx : List (List Char × List Nat)) :
    ∀ (arr : List (List Char)) (p : Nat), (∀ wp ∈ idx, p ∉ wp.2) →
    (fillSlots idx arr)[p]? = arr[p]? := by
  induction idx with
  | nil => intro arr p _; rfl
  | cons wp rest ih =>
    intro arr p h
    show (fillSlots rest (setPositions arr wp.1 wp.2))[p]? = arr[p]?
    rw [ih _ _ (fun e he => h e (List.mem_cons_of_mem _ he)),
      getElem?_setPositions_not_mem _ _ _ _ (h wp (List.mem_cons_self wp rest))]

lemma getElem?_fillSlots_covered (idx : List (List Char × List Nat)) :
    ∀ (arr : List (List Char)) (p : Nat) (v : List Char),
    (∀ wp ∈ idx, p ∈ wp.2 → wp.1 = v) → (∃ wp ∈ idx, p ∈ wp.2) → p < arr.length →
    (fillSlots idx arr)[p]? = some v := by
  induction idx with
  | nil =>
    intro arr p v _ hex _
    obtain ⟨wp, hwp, _⟩ := hex
    cases hwp
  | cons wp rest ih =>
    intro arr p v hcons hex hlen
    show (fillSlots rest (setPositions arr wp.1 wp.2))[p]? = some v
    by_cases hc : ∃ e ∈ rest, p ∈ e.2
    · exact ih _ _ _ (fun e he hpe => hcons e (List.mem_cons_of_mem _ he) hpe) hc
        (by rw [length_setPositions]; exact hlen)
    · have hpw : p ∈ wp.2 := by
        obtain ⟨e, he, hpe⟩ := hex
        rcases List.mem_cons.mp he with h | h
        · exact h ▸ hpe
        · exact absurd ⟨e, h, hpe⟩ hc
      push_neg at hc
      rw [getElem?_fillSlots_not_covered rest _ _ (fun e he => hc e he),
        getElem?_setPositions_mem _ _ _ _ hpw hlen,
        hcons wp (List.mem_cons_self wp rest) hpw]

end OpenAlexMCP

namespace OpenAlexMCP

lemma joinSp_cons (t : List Char) (ts : List (List Char)) (h : ts ≠ []) :
    joinSp (t :: ts) = t ++ ' ' :: joinSp ts := by
  cases ts with
  | nil => exact absurd rfl h
  | cons u ts2 => rfl

lemma joinSp_append (l1 l2 : List (List Char)) (h1 : l1 ≠ []) (h2 : l2 ≠ []) :
    joinSp (l1 ++ l2) = joinSp l1 ++ ' ' :: joinSp l2 := by
  induction l1 with
  | nil => exact absurd rfl h1
  | cons t l1t ih =>
    cases l1t with
    | nil =>
      rw [List.singleton_append, joinSp_cons t l2 h2]
      rfl
    | cons u l1t2 =>
      rw [List.cons_append, joinSp_cons t ((u :: l1t2) ++ l2) (by simp),
        joinSp_cons t (u :: l1t2) (by simp), ih (by simp)]
      simp

lemma joinSp_reverse (ts : List (List Char)) :
    (joinSp ts).reverse = joinSp (ts.reverse.map List.reverse) := by
  induction ts with
  | nil => rfl
  | cons t ts2 ih =>
    cases ts2 with
    | nil => simp [joinSp]
    | cons u ts3 =>
      rw [joinSp_cons t (u :: ts3) (by simp)]
      have hmapne : ((u :: ts3).reverse.map List.reverse) ≠ [] := by simp
      calc (t ++ ' ' :: joinSp (u :: ts3)).reverse
          = (joinSp (u :: ts3)).reverse ++ ' ' :: t.reverse := by simp
        _ = joinSp ((u :: ts3).reverse.map List.reverse) ++ ' ' :: joinSp [t.reverse] := by
            rw [ih]; rfl
        _ = joinSp ((u :: ts3).reverse.map List.reverse ++ [t.reverse]) :=
            (joinSp_append _ _ hmapne (by simp)).symm
        _ = joinSp ((t :: u :: ts3).reverse.map List.reverse) := by simp

lemma splitWsAux_token (t : List Char) (h : ∀ c ∈ t, isWs c = false) :
    ∀ (rest acc : List Char), splitWsAux (t ++ rest) acc = splitWsAux rest (t.reverse ++ acc) := by
  induction t with
  | nil => intro rest acc; simp
  | cons c t2 ih =>
    intro rest acc
    have hc : isWs c = false := h c (List.mem_cons_self c t2)
    rw [List.cons_append]
    show splitWsAux (c :: (t2 ++ rest)) acc = _
    rw [splitWsAux, if_neg (by simp [hc]),
      ih (fun d hd => h d (List.mem_cons_of_mem _ hd)) rest (c :: acc)]
    simp

lemma splitWs_joinSp (ts : List (List Char)) (h1 : ∀ t ∈ ts, t ≠ [])
    (h2 : ∀ t ∈ ts, ∀ c ∈ t, isWs c = false) : splitWs (joinSp ts) = ts := by
  induction ts with
  | nil => rfl
  | cons t ts2 ih =>
    have htne : t ≠ [] := h1 t (List.mem_cons_self t ts2)
    have htws : ∀ c ∈ t, isWs c = false := h2 t (List.mem_cons_self t ts2)
    cases ts2 with
    | nil =>
      show splitWs (joinSp [t]) = [t]
      have h3 := splitWsAux_token t htws [] []
      simp only [List.append_nil] at h3
      unfold splitWs
      show splitWsAux t [] = [t]
      rw [h3, splitWsAux]
      simp [htne]
    | cons u ts3 =>
      unfold splitWs
      rw [joinSp_cons t (u :: ts3) (by simp), splitWsAux_token t htws _ _]
      simp only [List.append_nil]
      rw [splitWsAux, if_pos (by simp [isWs]), if_neg (by simp [htne])]
      rw [List.reverse_reverse]
      have := ih (fun x hx => h1 x (List.mem_cons_of_mem _ hx))
        (fun x hx => h2 x (List.mem_cons_of_mem _ hx))
      unfold splitWs at this
      rw [this]

lemma dropWhile_joinSp (ts : List (List Char)) (h1 : ∀ t ∈ ts, t ≠ [])
    (h2 : ∀ t ∈ ts, ∀ c ∈ t, isWs c = false) :
    (joinSp ts).dropWhile isWs = joinSp ts := by
  apply dropWhile_eq_self_of_head
  intro a ha
  cases ts with
  | nil => simp [joinSp] at ha
  | cons t ts2 =>
    have htne : t ≠ [] := h1 t (List.mem_cons_self t ts2)
    have htws : ∀ c ∈ t, isWs c = false := h2 t (List.mem_cons_self t ts2)
    cases t with
    | nil => exact absurd rfl htne
    | cons c t2 =>
      have hhead : (joinSp ((c :: t2) :: ts2)).head? = some c := by
        cases ts2 with
        | nil => rfl
        | cons u ts3 => rw [joinSp_cons _ (u :: ts3) (by simp)]; rfl
      rw [hhead] at ha
      cases ha
      exact htws a (List.mem_cons_self a t2)

lemma stripWs_joinSp (ts : List (List Char)) (hne : ts ≠ []) (h1 : ∀ t ∈ ts, t ≠ [])
    (h2 : ∀ t ∈ ts, ∀ c ∈ t, isWs c = false) :
    stripWs (joinSp ts) = joinSp ts := by
  unfold stripWs
  rw [dropWhile_joinSp ts h1 h2, joinSp_reverse ts]
  have h1r : ∀ t ∈ ts.reverse.map List.reverse, t ≠ [] := by
    intro t ht
    obtain ⟨u, hu, rfl⟩ := List.mem_map.mp ht
    simp only [ne_eq, List.reverse_eq_nil_iff]
    exact h1 u (List.mem_reverse.mp hu)
  have h2r : ∀ t ∈ ts.reverse.map List.reverse, ∀ c ∈ t, isWs c = false := by
    intro t ht c hc
    obtain ⟨u, hu, rfl⟩ := List.mem_map.mp ht
    exact h2 u (List.mem_reverse.mp hu) c (List.mem_reverse.mp hc)
  rw [dropWhile_joinSp _ h1r h2r, ← joinSp_reverse ts, List.reverse_reverse]

end OpenAlexMCP

namespace OpenAlexMCP

/-- C6: abstract reconstruction is a left-inverse of the inverted-index
encoding.  For every token sequence ts of non-empty whitespace-free words and
every mapping idx that encodes it (non-empty position lists; every listed
position p carries the word ts[p], which makes the mapping collision-free; and
every position 0 .. ts.length - 1 is covered, so there are no gaps),
reconstructing and re-splitting on whitespace recovers ts in order - a word
listed at several positions appears at each of them; and the empty mapping
yields the empty string (never an absent value: the return type is a string). -/
theorem C6_reconstruct_left_inverse (ts : List (List Char))
    (idx : List (List Char × List Nat))
    (hts : ts ≠ [])
    (htok : ∀ t ∈ ts, t ≠ [] ∧ ∀ c ∈ t, isWs c = false)
    (hidx : idx ≠ [])
    (hne : ∀ wp ∈ idx, wp.2 ≠ [])
    (henc : ∀ wp ∈ idx, ∀ p ∈ wp.2, p < ts.length ∧ ts.getD p [] = wp.1)
    (hcov : ∀ p, p < ts.length → ∃ wp ∈ idx, p ∈ wp.2) :
    splitWs (reconstruct_abstract_from_inverted_index idx) = ts
    ∧ reconstruct_abstract_from_inverted_index [] = [] := by
  refine ⟨?_, rfl⟩
  have hn : 0 < ts.length := List.length_pos.mpr hts
  have hub : ∀ wp ∈ idx, ∀ p ∈ wp.2, p < ts.length :=
    fun wp hwp p hp => (henc wp hwp p hp).1
  have hmax_le : maxPosition idx ≤ ts.length - 1 := by
    unfold maxPosition
    apply foldl_max_le _ 0 _ (Nat.zero_le _)
    intro x hx
    obtain ⟨wp, hwp, rfl⟩ := List.mem_map.mp hx
    apply foldl_max_le _ 0 _ (Nat.zero_le _)
    intro p hp
    have := hub wp hwp p hp
    omega
  have hmax_ge : ts.length - 1 ≤ maxPosition idx := by
    obtain ⟨wp, hwp, hp⟩ := hcov (ts.length - 1) (by omega)
    have hx1 : ts.length - 1 ≤ wp.2.foldl Nat.max 0 := mem_le_foldl_max _ _ hp 0
    have hx2 : wp.2.foldl Nat.max 0 ≤ maxPosition idx := by
      unfold maxPosition
      exact mem_le_foldl_max _ _
        (List.mem_map_of_mem (fun wp => wp.2.foldl Nat.max 0) hwp) 0
    omega
  have hmax : maxPosition idx + 1 = ts.length := by omega
  have hslots : fillSlots idx (List.replicate ts.length ([] : List Char)) = ts := by
    apply List.ext_getElem?
    intro i
    by_cases hi : i < ts.length
    · rw [getElem?_fillSlots_covered idx _ i (ts.getD i [])
        (fun wp hwp hpw => ((henc wp hwp i hpw).2).symm)
        (hcov i hi) (by simpa using hi)]
      rw [List.getElem?_eq_getElem hi]
      congr 1
      simp [List.getD_eq_getElem?_getD, List.getElem?_eq_getElem hi]
    · rw [List.getElem?_eq_none (by simpa [length_fillSlots] using Nat.le_of_not_lt hi),
        List.getElem?_eq_none (Nat.le_of_not_lt hi)]
  have hne_empty : idx.isEmpty = false := by
    cases idx with
    | nil => exact absurd rfl hidx
    | cons a b => rfl
  have hno_emptypos : idx.any (fun wp => wp.2.isEmpty) = false := by
    rw [List.any_eq_false]
    intro wp hwp
    simp [List.isEmpty_iff, hne wp hwp]
  have h1 : ∀ t ∈ ts, t ≠ [] := fun t ht => (htok t ht).1
  have h2 : ∀ t ∈ ts, ∀ c ∈ t, isWs c = false := fun t ht => (htok t ht).2
  have hfilter : ts.filter (fun w => !w.isEmpty) = ts := by
    rw [List.filter_eq_self]
    intro t ht
    simp [List.isEmpty_iff, h1 t ht]
  unfold reconstruct_abstract_from_inverted_index
  rw [if_neg (by simp [hne_empty]), if_neg (by simp [hno_emptypos])]
  simp only
  rw [hmax, hslots, hfilter, stripWs_joinSp ts hts h1 h2, splitWs_joinSp ts h1 h2]

theorem C6_reconstruct_left_inverse_witness :
    splitWs (reconstruct_abstract_from_inverted_index
      [("a".data, [0, 2]), ("b".data, [1])]) = ["a".data, "b".data, "a".data] :=
  (C6_reconstruct_left_inverse ["a".data, "b".data, "a".data]
    [("a".data, [0, 2]), ("b".data, [1])]
    (by decide) (by decide) (by decide) (by decide) (by decide) (by decide)).1

end OpenAlexMCP
